import Mathlib

/-!
Verification of the PhiFlow backend subsystem (phi/torch/torch_backend.py and
phi/tf/data.py) against its natural-language specification.

The Python source is shallowly embedded: pure functions become Lean functions,
per-axis lists are embedded either as `List` values or as functions from the
axis index, engine tensors become explicit shape/data records, and fallible
code returns `Except`.
-/

namespace PhiFlow

/-- Python exception kinds raised by the embedded code.  Distinct constructors
model Python's distinct exception classes (`NotImplementedError` vs
`ValueError` vs `TypeError` etc.). -/
inductive PyErr : Type
  | valueError
  | typeError
  | notImplementedError
  | assertionError
  | indexError
  | keyError
  | runtimeError
  | attributeError
deriving DecidableEq, Repr

/-! ### C1: `TorchBackend.combine_types` (torch_backend.py lines 23-40)

numpy dtypes are embedded as a kind character (`b`ool / `i`nt / `f`loat /
`c`omplex, the kinds of the backend's supported dtype set) together with the
itemsize in bytes. -/

/-- numpy dtype kind characters of the supported dtype set. -/
inductive NpKind : Type
  | b
  | i
  | f
  | c
deriving DecidableEq, Repr

/-- An engine-neutral (numpy-level) dtype: kind plus itemsize in bytes.
The supported set (translation table of `translate_dtype`) is
bool(b,1), int8/16/32/64 (i,1/2/4/8), float16/32/64 (f,2/4/8),
complex64/128 (c,8/16). -/
structure NpDtype : Type where
  kind : NpKind
  itemsize : Nat
deriving DecidableEq, Repr

/-- Modelled from the spec: `Backend.float_type` (base class `phi.math.backend`,
not under src/) — "the coordinator's canonical float type (driven by
Precision)", 16 → half, 32 → single, 64 → double, unset → single. -/
def float_type (precision : Option Nat) : NpDtype :=
  ⟨NpKind.f, precision.getD 32 / 8⟩

/-- Modelled from the spec: `Backend.complex_type` (base class
`phi.math.backend`, not under src/) — the canonical complex type matching the
canonical float type's precision (a complex number is two floats wide). -/
def complex_type (precision : Option Nat) : NpDtype :=
  ⟨NpKind.c, precision.getD 32 / 4⟩

instance {ε α : Type} [DecidableEq ε] [DecidableEq α] : DecidableEq (Except ε α) := fun x y =>
  match x, y with
  | Except.ok a, Except.ok b =>
    if h : a = b then isTrue (by rw [h]) else isFalse (fun hh => h (Except.ok.inj hh))
  | Except.ok _, Except.error _ => isFalse (fun hh => Except.noConfusion hh)
  | Except.error _, Except.ok _ => isFalse (fun hh => Except.noConfusion hh)
  | Except.error a, Except.error b =>
    if h : a = b then isTrue (by rw [h]) else isFalse (fun hh => h (Except.error.inj hh))

/-- Python's `max(d :: ds, key=lambda dt: dt.itemsize)`: scans left to right
and replaces the current maximum only on a strictly larger key, hence returns
the first element of maximal itemsize. -/
def firstWidest (d : NpDtype) (ds : List NpDtype) : NpDtype :=
  ds.foldl (fun acc dt => if acc.itemsize < dt.itemsize then dt else acc) d

/-- `TorchBackend.combine_types(*dtypes)`: the four promotion tiers.
An empty argument list hits `dtypes[0]` in the first tier (IndexError). -/
def combine_types (precision : Option Nat) (dtypes : List NpDtype) :
    Except PyErr NpDtype :=
  match dtypes with
  | [] => Except.error PyErr.indexError
  | d :: ds =>
    if (d :: ds).all (fun dt => dt.kind == NpKind.b) then
      Except.ok d
    else if (d :: ds).all (fun dt => dt.kind == NpKind.i || dt.kind == NpKind.b) then
      Except.ok (firstWidest d ds)
    else if (d :: ds).all
        (fun dt => dt.kind == NpKind.f || dt.kind == NpKind.i || dt.kind == NpKind.b) then
      Except.ok (float_type precision)
    else if (d :: ds).all
        (fun dt => dt.kind == NpKind.c || dt.kind == NpKind.f || dt.kind == NpKind.i ||
          dt.kind == NpKind.b) then
      Except.ok (complex_type precision)
    else
      Except.error PyErr.valueError

/-! ### C2: layout adapters `channels_first` / `channels_last`
(torch_backend.py lines 468-473)

An engine tensor is embedded as a shape list plus the value stored at each
index vector; index entries beyond the rank are ignored by the shape but kept
by `permute`'s reindexing, so value round-trips are stated on index vectors of
the tensor's rank. -/

structure Tensor (α : Type) : Type where
  shape : List Nat
  data : List Nat → α

/-- Gather `l` along the dimension list `p`: entry `j` of the result is entry
`p[j]` of `l`. -/
def gatherIdx (p : List Nat) (l : List Nat) : List Nat :=
  p.map (fun k => l.getD k 0)

/-- The inverse of a permutation list: entry `d` is the position of dimension
`d` inside `dims`. -/
def invPerm (dims : List Nat) : List Nat :=
  (List.range dims.length).map (fun d => dims.indexOf d)

/-- `x.permute(dims)`: output axis `j` is input axis `dims[j]`, so the output
shape gathers the input shape along `dims`, and the value at output index `i`
is the input value at the index whose entry `dims[j]` is `i[j]` — i.e. the
gather of `i` along the inverse permutation. -/
def permute (t : Tensor α) (dims : List Nat) : Tensor α :=
  { shape := gatherIdx dims t.shape
    data := fun i => t.data (gatherIdx (invPerm dims) i) }

/-- The dimension tuple `(0, -1) + tuple(range(1, n - 1))` of
`channels_first`, with the negative axis normalized. -/
def cfPerm (n : Nat) : List Nat :=
  0 :: (n - 1) :: List.range' 1 (n - 2)

/-- The dimension tuple `(0,) + tuple(range(2, n)) + (1,)` of
`channels_last`. -/
def clPerm (n : Nat) : List Nat :=
  0 :: (List.range' 2 (n - 2) ++ [1])

/-- `channels_first(x)`: move the last axis to position 1. -/
def channels_first (x : Tensor α) : Tensor α :=
  permute x (cfPerm x.shape.length)

/-- `channels_last(x)`: move axis 1 to the last position. -/
def channels_last (x : Tensor α) : Tensor α :=
  permute x (clPerm x.shape.length)

/-! ### C5: `TorchBackend.to_float` (torch_backend.py lines 316-332) -/

/-- torch dtypes of the supported set (the keys of `inv_translate_dtype`). -/
inductive TorchDType : Type
  | bool
  | int8
  | int16
  | int32
  | int64
  | float16
  | float32
  | float64
  | complex64
  | complex128
deriving DecidableEq, Repr

/-- `torch.dtype.is_floating_point`, the attribute that actually exists on
torch dtypes (used correctly at line 74 of the source).  Line 324 of
`to_float` instead accesses `x.dtype.is_floating`, which does not exist on
`torch.dtype` and raises `AttributeError`; see `to_float` below. -/
def TorchDType.is_floating_point : TorchDType → Bool
  | TorchDType.float16 => true
  | TorchDType.float32 => true
  | TorchDType.float64 => true
  | _ => false

/-- A torch tensor for dtype-level reasoning: its dtype and its payload.
The engine's value conversion applied by `.to(dtype)` is abstracted as a
parameter `castVal` below. -/
structure TorchTensor (α : Type) : Type where
  dtype : TorchDType
  data : α

/-- `x.to(dt)` (`x.half()` / `x.float()` / `x.double()` are casts to
float16 / float32 / float64 respectively). -/
def castTensor (castVal : TorchDType → α → α) (x : TorchTensor α) (dt : TorchDType) :
    TorchTensor α :=
  ⟨dt, castVal dt x.data⟩

/-- `TorchBackend.to_float(x, float64=False)` on a tensor argument.
`self.has_fixed_precision` is modelled from the spec as `precision.isSome`
(the base `Backend` class is not under src/; the spec's Precision is one of
16/32/64/unset).  The no-fixed-precision branch evaluates
`x.dtype.is_floating` (line 324) — an attribute `torch.dtype` does not have
(the real attribute is `is_floating_point`, as used at line 74), so that
branch raises `AttributeError` before any value can be returned.  The final
branch is `raise AssertionError(self.precision)`. -/
def to_float (castVal : TorchDType → α → α) (precision : Option Nat) (float64 : Bool)
    (x : TorchTensor α) : Except PyErr (TorchTensor α) :=
  if float64 then Except.ok (castTensor castVal x TorchDType.float64)
  else if precision.isSome = false then
    Except.error PyErr.attributeError
  else if precision = some 16 then Except.ok (castTensor castVal x TorchDType.float16)
  else if precision = some 32 then Except.ok (castTensor castVal x TorchDType.float32)
  else if precision = some 64 then Except.ok (castTensor castVal x TorchDType.float64)
  else Except.error PyErr.assertionError

/-! ### C6: `TorchBackend.while_loop` (torch_backend.py lines 223-230) -/

/-- `while_loop(cond, body, loop_vars, maximum_iterations=k)`: the source's
`while cond(*loop_vars)` loop with counter `i`, embedded with the remaining
iteration budget `k - i` as structural fuel.  When the budget is exhausted the
loop breaks regardless of `cond` and returns the current `loop_vars`
(the unbounded `maximum_iterations=None` form is outside this claim). -/
def while_loop (cond : α → Bool) (body : α → α) : α → Nat → α
  | v, 0 => v
  | v, k + 1 => if cond v then while_loop cond body (body v) k else v

/-- `while_loop` instrumented with the number of `body` evaluations
performed. -/
def while_loop_count (cond : α → Bool) (body : α → α) : α → Nat → α × Nat
  | v, 0 => (v, 0)
  | v, k + 1 =>
    if cond v then
      ((while_loop_count cond body (body v) k).1, (while_loop_count cond body (body v) k).2 + 1)
    else (v, 0)

/-! ### C9: `concat_datasets` (tf/data.py lines 106-117)

A TensorFlow dataset is embedded as the list of its examples in order;
`tf.data.Dataset.concatenate(d1, d2)` is list append.  The source asserts a
non-empty input list and recurses on the two halves split at `len // 2`. -/

def concat_datasets (datasets : List (List α)) : Except PyErr (List α) :=
  if datasets.length = 0 then Except.error PyErr.assertionError
  else if datasets.length = 1 then Except.ok (datasets.headD [])
  else
    match concat_datasets (datasets.take (datasets.length / 2)),
        concat_datasets (datasets.drop (datasets.length / 2)) with
    | Except.ok d1, Except.ok d2 => Except.ok (d1 ++ d2)
    | Except.error e, _ => Except.error e
    | _, Except.error e => Except.error e
termination_by datasets.length
decreasing_by
  · simp only [List.length_take]
    omega
  · simp only [List.length_drop]
    omega

/-- The call depth of the recursion in `concat_datasets`. -/
def concat_depth (datasets : List (List α)) : Nat :=
  if datasets.length ≤ 1 then 1
  else 1 + max (concat_depth (datasets.take (datasets.length / 2)))
      (concat_depth (datasets.drop (datasets.length / 2)))
termination_by datasets.length
decreasing_by
  · simp only [List.length_take]
    omega
  · simp only [List.length_drop]
    omega

/-! ### C10: `TorchBackend.divide_no_nan` (torch_backend.py lines 175-179)

Float values are embedded as exact rationals extended with the special values
produced by torch's float division: `a / 0` is `nan` for `a = 0` and `±inf`
otherwise.  (Rounding and signed zeros are not modelled; the claim is about
the zero-divisor guard, not float rounding.) -/

inductive ExtFloat : Type
  | fin (q : ℚ)
  | nan
  | inf
  | ninf
deriving DecidableEq

/-- torch elementwise scalar division on the extended value domain. -/
def tdiv : ExtFloat → ExtFloat → ExtFloat
  | ExtFloat.fin a, ExtFloat.fin b =>
    if b = 0 then
      (if a = 0 then ExtFloat.nan else if 0 < a then ExtFloat.inf else ExtFloat.ninf)
    else ExtFloat.fin (a / b)
  | ExtFloat.nan, _ => ExtFloat.nan
  | _, ExtFloat.nan => ExtFloat.nan
  | ExtFloat.inf, ExtFloat.inf => ExtFloat.nan
  | ExtFloat.inf, ExtFloat.ninf => ExtFloat.nan
  | ExtFloat.ninf, ExtFloat.inf => ExtFloat.nan
  | ExtFloat.ninf, ExtFloat.ninf => ExtFloat.nan
  | ExtFloat.inf, ExtFloat.fin b => if 0 ≤ b then ExtFloat.inf else ExtFloat.ninf
  | ExtFloat.ninf, ExtFloat.fin b => if 0 ≤ b then ExtFloat.ninf else ExtFloat.inf
  | ExtFloat.fin _, ExtFloat.inf => ExtFloat.fin 0
  | ExtFloat.fin _, ExtFloat.ninf => ExtFloat.fin 0

/-- The elementwise comparison `y == 0` (`nan`, `inf` and `-inf` never equal
zero). -/
def eqZero : ExtFloat → Bool
  | ExtFloat.fin q => q == 0
  | _ => false

/-- Elementwise binary operation on same-shape tensors. -/
def map2 (f : α → α → α) (x y : Tensor α) : Tensor α :=
  ⟨x.shape, fun i => f (x.data i) (y.data i)⟩

/-- `torch.zeros_like`. -/
def zeros_like (x : Tensor ExtFloat) : Tensor ExtFloat :=
  ⟨x.shape, fun _ => ExtFloat.fin 0⟩

/-- `torch.where(condition, a, b)` on same-shape tensors. -/
def whereT (c : Tensor Bool) (a b : Tensor α) : Tensor α :=
  ⟨a.shape, fun i => if c.data i then a.data i else b.data i⟩

/-- `TorchBackend.divide_no_nan(x, y)` on same-shape tensor arguments:
`result = x / y; torch.where(y == 0, torch.zeros_like(result), result)`. -/
def divide_no_nan (x y : Tensor ExtFloat) : Tensor ExtFloat :=
  whereT ⟨y.shape, fun i => eqZero (y.data i)⟩ (zeros_like (map2 tdiv x y)) (map2 tdiv x y)

/-! ### C7: `TorchBackend.conv` (torch_backend.py lines 288-303)

The claim is about output shapes, so the convolution is embedded at the shape
level: `torchf.conv1d/2d/3d` by its documented shape semantics and padding
argument validation, and `TorchBackend.conv` by its exact padding-list
construction and layout permutes. -/

/-- The dimension tuple `(-2, -1) + tuple(range(n - 2))` applied to the
kernel, normalized. -/
def kernPerm (n : Nat) : List Nat :=
  (n - 2) :: (n - 1) :: List.range (n - 2)

/-- The padding argument accepted by `torch.nn.functional.convNd`: a single
integer applied to every spatial dim, or one value per spatial dim. -/
inductive ConvPadArg : Type
  | int (p : Nat)
  | list (ps : List Nat)
deriving DecidableEq, Repr

/-- Shape semantics of `torchf.conv1d/conv2d/conv3d` (stride 1, no dilation,
groups 1): input `(N, C_in, spatial…)`, weight `(C_out, C_in, kspatial…)`,
output `(N, C_out, in_i + 2·p_i − k_i + 1)`.  A list-valued padding must
supply exactly one value per spatial dim; rank or channel mismatches and
oversized kernels raise. -/
def torchf_conv_shape (input weight : List Nat) (padding : ConvPadArg) :
    Except PyErr (List Nat) :=
  match (match padding with
         | ConvPadArg.int p => some (List.replicate (input.length - 2) p)
         | ConvPadArg.list ps => if ps.length = input.length - 2 then some ps else none) with
  | none => Except.error PyErr.runtimeError
  | some ps =>
    if weight.length = input.length ∧ weight.getD 1 0 = input.getD 1 0 ∧
        (∀ i, i < input.length - 2 →
          weight.getD (i + 2) 0 ≤ input.getD (i + 2) 0 + 2 * ps.getD i 0) then
      Except.ok (input.getD 0 0 :: weight.getD 0 0 ::
        (List.range (input.length - 2)).map
          (fun i => input.getD (i + 2) 0 + 2 * ps.getD i 0 + 1 - weight.getD (i + 2) 0))
    else Except.error PyErr.runtimeError

/-- `padding.lower()`: lower-case each character. -/
def pyLower (s : String) : String :=
  String.mk (s.data.map Char.toLower)

/-- The padding-policy dispatch of `TorchBackend.conv(tensor, kernel,
padding)`.  For `'same'` the source builds `sum([[d // 2, (d + 1) // 2] for d
in kernel.shape], [])` — one pad *pair* for every kernel dim, channel dims
included — and hands that flat list to the conv primitive; `'valid'` passes 0;
anything else raises `ValueError`. -/
def resolve_padding (kernel : List Nat) (padding : String) : Except PyErr ConvPadArg :=
  if pyLower padding = "valid" then Except.ok (ConvPadArg.int 0)
  else if pyLower padding = "same" then
    Except.ok (ConvPadArg.list (kernel.flatMap (fun d => [d / 2, (d + 1) / 2])))
  else Except.error PyErr.valueError

/-- The remainder of `TorchBackend.conv` after the padding argument is
resolved: channels-first conversion, kernel permute, primitive selection by
tensor rank, channels-last conversion of the result. -/
def conv (tensor kernel : List Nat) (padding : String) : Except PyErr (List Nat) :=
  match resolve_padding kernel padding with
  | Except.error e => Except.error e
  | Except.ok parg =>
    if tensor.length = 3 ∨ tensor.length = 4 ∨ tensor.length = 5 then
      match torchf_conv_shape (gatherIdx (cfPerm tensor.length) tensor)
          (gatherIdx (kernPerm kernel.length) kernel) parg with
      | Except.ok r => Except.ok (gatherIdx (clPerm r.length) r)
      | Except.error e => Except.error e
    else Except.error PyErr.keyError

/-! ### C8: `TorchBackend.gather_nd` (torch_backend.py lines 349-364) -/

/-- `t[j]`: drop the leading axis at position `j`. -/
def slice0 (t : Tensor α) (j : Nat) : Tensor α :=
  ⟨t.shape.tail, fun o => t.data (j :: o)⟩

/-- `values[list(dim_indices)]` where `dim_indices = unstack(indices, axis=-1)`:
advanced indexing with the `m` coordinate tensors obtained by unstacking
`indices` along its last axis.  The output at `s ++ r` (with `s` ranging over
the index tensors' common shape) is `values` at
`(indices[s ++ [0]], …, indices[s ++ [m-1]]) ++ r`. -/
def advIndex (values : Tensor α) (indices : Tensor Nat) : Tensor α :=
  { shape := indices.shape.dropLast ++ values.shape.drop (indices.shape.getLastD 0)
    data := fun o =>
      values.data ((List.range (indices.shape.getLastD 0)).map
        (fun q => indices.data (o.take (indices.shape.dropLast.length) ++ [q])) ++
        o.drop (indices.shape.dropLast.length)) }

/-- `self.stack(result, axis=0)` on a list of equally-shaped tensors. -/
def stack0 [Inhabited α] (ts : List (Tensor α)) : Tensor α :=
  { shape := ts.length :: (ts.headD ⟨[], fun _ => default⟩).shape
    data := fun o => (ts.getD (o.headD 0) ⟨[], fun _ => default⟩).data o.tail }

/-- Modelled from the spec: `combined_dim` (phi.math base, not under src/) —
the leading axes of `values` and `indices` form one aligned batch axis, so
they must agree. -/
def combined_dim (a b : Nat) : Option Nat :=
  if a = b then some a else none

/-- `TorchBackend.gather_nd(values, indices, batch_dims)`: direct advanced
indexing for `batch_dims = 0`; a per-batch-element loop restacked along axis 0
for `batch_dims = 1`; `NotImplementedError` for anything larger. -/
def gather_nd [Inhabited α] (values : Tensor α) (indices : Tensor Nat) (batch_dims : Nat) :
    Except PyErr (Tensor α) :=
  if batch_dims = 0 then Except.ok (advIndex values indices)
  else if batch_dims = 1 then
    match combined_dim (values.shape.headD 0) (indices.shape.headD 0) with
    | some batch_size =>
      Except.ok (stack0 ((List.range batch_size).map
        (fun b => advIndex (slice0 values b) (slice0 indices b))))
    | none => Except.error PyErr.assertionError
  else Except.error PyErr.notImplementedError

/-! ### C3 / C4: `TorchBackend.pad` and
`TorchBackend._single_mode_single_constant_pad` (torch_backend.py lines
102-123)

For padding, an n-d tensor is embedded as a rank, a shape function and a data
function on coordinate assignments (`Nat → Nat`); a per-axis pad-width list is
a function from the axis index to the (before, after) pair.  `torchf.pad`'s
modes act independently per axis, so a single-mode pass is a simultaneous
per-axis index transformation, with the constant fill for out-of-range
coordinates in constant mode. -/

structure Grid (α : Type) : Type where
  rank : Nat
  shape : Nat → Nat
  data : (Nat → Nat) → α

inductive PadMode : Type
  | constant
  | symmetric
  | circular
  | reflect
  | replicate
deriving DecidableEq, Repr

/-- The per-axis coordinate map of one `torchf.pad` mode: given the
(before, after) pad widths, the axis size and an output coordinate, the input
coordinate read there, or `none` when a constant-mode coordinate falls in the
fill region.  `circular` wraps, `replicate` clamps, `reflect` mirrors without
repeating the edge value, `symmetric` mirrors with the edge repeated. -/
def axisMap : PadMode → Nat × Nat → Nat → Nat → Option Nat
  | PadMode.constant, w, size, i =>
    if w.1 ≤ i ∧ i < w.1 + size then some (i - w.1) else none
  | PadMode.circular, w, size, i => some ((((i : Int) - (w.1 : Int)) % (size : Int)).toNat)
  | PadMode.replicate, w, size, i => some (min (i - w.1) (size - 1))
  | PadMode.reflect, w, size, i =>
    some (if i < w.1 then w.1 - i
      else if i - w.1 < size then i - w.1 else 2 * size - 2 - (i - w.1))
  | PadMode.symmetric, w, size, i =>
    some (if i < w.1 then w.1 - i - 1
      else if i - w.1 < size then i - w.1 else 2 * size - 1 - (i - w.1))

/-- A single-mode, single-constant padding pass. -/
structure PadPass (α : Type) : Type where
  mode : PadMode
  width : Nat → Nat × Nat
  cval : α

/-- Apply one single-mode single-constant padding pass to a grid: every axis
grows by its (before, after) widths, and each output coordinate reads the
input through the mode's per-axis map, falling back to the pass's constant
when a constant-mode coordinate is in the fill region. -/
def applyPass (p : PadPass α) (g : Grid α) : Grid α :=
  { rank := g.rank
    shape := fun k => (p.width k).1 + g.shape k + (p.width k).2
    data := fun i =>
      if ∀ k, k < g.rank → (axisMap p.mode (p.width k) (g.shape k) (i k)).isSome then
        g.data (fun k =>
          if k < g.rank then (axisMap p.mode (p.width k) (g.shape k) (i k)).getD 0 else i k)
      else p.cval }

/-- `np.any(np.array(pad_width) > 1)` over the rank-many per-axis pairs. -/
def anyGt1 (rank : Nat) (w : Nat → Nat × Nat) : Bool :=
  (List.range rank).any (fun k => decide (1 < (w k).1) || decide (1 < (w k).2))

/-- The non-constant branch of `_single_mode_single_constant_pad` uses
`pad_width[1:-1]` around a channels-first/channels-last permute pair, so only
interior (spatial) axes are padded; the first and last axes' widths are
dropped. -/
def interiorW (rank : Nat) (w : Nat → Nat × Nat) : Nat → Nat × Nat :=
  fun k => if k = 0 ∨ k + 1 = rank then (0, 0) else w k

/-- Modelled from the spec: `symmetric_pad` (phi.math.backend, not under
src/) — the true symmetric-reflection padding applied along every axis
according to the full per-axis pad widths. -/
def symmetric_pad [Inhabited α] (v : Grid α) (w : Nat → Nat × Nat) : Grid α :=
  applyPass ⟨PadMode.symmetric, w, default⟩ v

/-- `TorchBackend._single_mode_single_constant_pad(value, pad_width, mode,
constant_value)`: constant mode pads every axis with the fill value through
`torchf.pad`'s flat pad list; symmetric mode calls `symmetric_pad` when any
width exceeds 1 and otherwise falls back to replicate; replicate, reflect and
circular pad the interior axes only. -/
def single_mode_single_constant_pad [Inhabited α] (v : Grid α) (w : Nat → Nat × Nat)
    (mode : PadMode) (c : α) : Grid α :=
  match mode with
  | PadMode.constant => applyPass ⟨PadMode.constant, w, c⟩ v
  | PadMode.symmetric =>
    if anyGt1 v.rank w then symmetric_pad v w
    else applyPass ⟨PadMode.replicate, interiorW v.rank w, c⟩ v
  | m => applyPass ⟨m, interiorW v.rank w, c⟩ v

/-- One entry of the pass list computed by `split_multi_mode_pad` (phi.math
base, not under src/): per the spec, the mixed per-axis spec is decomposed
into passes of one mode and one constant each, every axis being padded by
exactly one pass. -/
structure PassSpec (α : Type) : Type where
  width : Nat → Nat × Nat
  mode : PadMode
  cval : α

/-- The effective single pass `_single_mode_single_constant_pad` executes for
a given pass spec at a given rank. -/
def effPass [Inhabited α] (rank : Nat) (s : PassSpec α) : PadPass α :=
  match s.mode with
  | PadMode.constant => ⟨PadMode.constant, s.width, s.cval⟩
  | PadMode.symmetric =>
    if anyGt1 rank s.width then ⟨PadMode.symmetric, s.width, default⟩
    else ⟨PadMode.replicate, interiorW rank s.width, s.cval⟩
  | m => ⟨m, interiorW rank s.width, s.cval⟩

/-- The pass loop of `TorchBackend.pad`:
`for pad_pass in passes: value = self._single_mode_single_constant_pad(value, *pad_pass)`. -/
def pad_passes [Inhabited α] (t : Grid α) (specs : List (PassSpec α)) : Grid α :=
  specs.foldl (fun v s => single_mode_single_constant_pad v s.width s.mode s.cval) t

/-- All axis sizes positive. -/
def PosShape (g : Grid α) : Prop :=
  ∀ k, k < g.rank → 0 < g.shape k

/-- The per-axis width bounds under which a mode's index map stays inside the
axis: `reflect` needs widths < size, `symmetric` needs widths ≤ size; the
wrapping, clamping and constant modes need nothing beyond a positive size. -/
def widthOkAt : PadMode → Nat × Nat → Nat → Prop
  | PadMode.reflect, w, size => w.1 < size ∧ w.2 < size
  | PadMode.symmetric, w, size => w.1 ≤ size ∧ w.2 ≤ size
  | _, _, _ => True

/-- A pass's widths are within the mode's bounds on every axis. -/
def ValidPass (p : PadPass α) (g : Grid α) : Prop :=
  ∀ k, k < g.rank → widthOkAt p.mode (p.width k) (g.shape k)

/-- Extensional equality of grids: same rank, same shape below the rank, and
the same value at every in-bounds coordinate assignment. -/
def GridEquiv (g h : Grid α) : Prop :=
  g.rank = h.rank ∧ (∀ k, k < g.rank → g.shape k = h.shape k) ∧
  (∀ i : Nat → Nat, (∀ k, k < g.rank → i k < g.shape k) → g.data i = h.data i)

/-- Two passes pad disjoint axis sets. -/
def DisjointPasses (n : Nat) (p q : PadPass α) : Prop :=
  ∀ k, k < n → p.width k = (0, 0) ∨ q.width k = (0, 0)

/-- A 1×1 integer tensor, used to exhibit order dependence of constant
passes. -/
def cexGrid : Grid Int :=
  ⟨2, fun _ => 1, fun _ => 7⟩

/-- Constant pass filling 1 before axis 0. -/
def cexPassA : PassSpec Int :=
  ⟨fun k => if k = 0 then (1, 0) else (0, 0), PadMode.constant, 1⟩

/-- Constant pass filling 2 before axis 1. -/
def cexPassB : PassSpec Int :=
  ⟨fun k => if k = 1 then (1, 0) else (0, 0), PadMode.constant, 2⟩

/-- A 2×2 integer tensor for the order-independence witness. -/
def exGrid : Grid Int :=
  ⟨2, fun _ => 2, fun i => i 0 + i 1⟩

/-- Constant pass with fill 5 around axis 0. -/
def exPassA : PassSpec Int :=
  ⟨fun k => if k = 0 then (1, 1) else (0, 0), PadMode.constant, 5⟩

/-- Constant pass with fill 5 before axis 1. -/
def exPassB : PassSpec Int :=
  ⟨fun k => if k = 1 then (2, 0) else (0, 0), PadMode.constant, 5⟩

/-- The 1-d tensor `[1, 2, 3]` of the spec's symmetric-padding example. -/
def exGrid13 : Grid Nat :=
  ⟨1, fun _ => 3, fun i => i 0 + 1⟩

/-- Pad width 2 on both sides of every axis. -/
def exW22 : Nat → Nat × Nat :=
  fun _ => (2, 2)

/-! ## Theorems -/

lemma firstWidest_cons (d e : NpDtype) (ds : List NpDtype) :
    firstWidest d (e :: ds) = firstWidest (if d.itemsize < e.itemsize then e else d) ds := rfl

lemma firstWidest_mem (d : NpDtype) (ds : List NpDtype) :
    firstWidest d ds ∈ d :: ds := by
  induction ds generalizing d with
  | nil => simp [firstWidest]
  | cons e ds ih =>
    rw [firstWidest_cons]
    by_cases hlt : d.itemsize < e.itemsize
    · rw [if_pos hlt]
      exact List.mem_cons_of_mem d (ih e)
    · rw [if_neg hlt]
      rcases List.mem_cons.mp (ih d) with h | h
      · rw [h]; exact List.mem_cons_self _ _
      · exact List.mem_cons_of_mem _ (List.mem_cons_of_mem _ h)

lemma firstWidest_maximal (d : NpDtype) (ds : List NpDtype) :
    ∀ dt ∈ d :: ds, dt.itemsize ≤ (firstWidest d ds).itemsize := by
  induction ds generalizing d with
  | nil => intro dt hdt; rw [List.mem_singleton] at hdt; subst hdt; exact le_rfl
  | cons e ds ih =>
    intro dt hdt
    rw [firstWidest_cons]
    have hd' : d.itemsize ≤ (if d.itemsize < e.itemsize then e else d).itemsize := by
      split <;> omega
    have he' : e.itemsize ≤ (if d.itemsize < e.itemsize then e else d).itemsize := by
      split <;> omega
    have hhead := ih (if d.itemsize < e.itemsize then e else d)
    rcases List.mem_cons.mp hdt with h | h
    · subst h
      exact le_trans hd' (hhead _ (List.mem_cons_self _ _))
    · rcases List.mem_cons.mp h with h' | h'
      · subst h'
        exact le_trans he' (hhead _ (List.mem_cons_self _ _))
      · exact hhead dt (List.mem_cons_of_mem _ h')

/-- C1 (amended): promotion tiers of `combine_types` over a non-empty list of
supported dtypes.  All-bool inputs give bool; inputs that are all int-or-bool
(with at least one int) give the *first dtype of maximal itemsize* — the
widest int present unless a bool ties with every int at one byte and comes
first; all-real inputs containing a float give the canonical float type; any
input containing a complex gives the canonical complex type. -/
theorem combine_types_promotion (p : Option Nat) (d : NpDtype) (ds : List NpDtype) :
    ((∀ dt ∈ d :: ds, dt.kind = NpKind.b) →
      combine_types p (d :: ds) = Except.ok d ∧ d.kind = NpKind.b) ∧
    ((∀ dt ∈ d :: ds, dt.kind = NpKind.i ∨ dt.kind = NpKind.b) →
      (∃ dt ∈ d :: ds, dt.kind = NpKind.i) →
      combine_types p (d :: ds) = Except.ok (firstWidest d ds) ∧
      firstWidest d ds ∈ d :: ds ∧
      (∀ dt ∈ d :: ds, dt.itemsize ≤ (firstWidest d ds).itemsize)) ∧
    ((∀ dt ∈ d :: ds, dt.kind = NpKind.f ∨ dt.kind = NpKind.i ∨ dt.kind = NpKind.b) →
      (∃ dt ∈ d :: ds, dt.kind = NpKind.f) →
      combine_types p (d :: ds) = Except.ok (float_type p)) ∧
    ((∃ dt ∈ d :: ds, dt.kind = NpKind.c) →
      combine_types p (d :: ds) = Except.ok (complex_type p)) := by
  refine ⟨fun h => ?_, fun h hex => ?_, fun h hex => ?_, fun hex => ?_⟩
  · have hb : ((d :: ds).all fun dt => dt.kind == NpKind.b) = true := by
      simp only [List.all_eq_true, beq_iff_eq]
      exact h
    exact ⟨by simp [combine_types, hb], h d (List.mem_cons_self d ds)⟩
  · obtain ⟨e, he, hei⟩ := hex
    have h1 : ((d :: ds).all fun dt => dt.kind == NpKind.b) = false := by
      rw [Bool.eq_false_iff]
      simp only [ne_eq, List.all_eq_true, beq_iff_eq, not_forall]
      exact ⟨e, he, by simp [hei]⟩
    have h2 : ((d :: ds).all fun dt => dt.kind == NpKind.i || dt.kind == NpKind.b) = true := by
      simp only [List.all_eq_true, Bool.or_eq_true, beq_iff_eq]
      exact h
    exact ⟨by simp [combine_types, h1, h2], firstWidest_mem d ds, firstWidest_maximal d ds⟩
  · obtain ⟨e, he, hef⟩ := hex
    have h1 : ((d :: ds).all fun dt => dt.kind == NpKind.b) = false := by
      rw [Bool.eq_false_iff]
      simp only [ne_eq, List.all_eq_true, beq_iff_eq, not_forall]
      exact ⟨e, he, by simp [hef]⟩
    have h2 : ((d :: ds).all fun dt => dt.kind == NpKind.i || dt.kind == NpKind.b) = false := by
      rw [Bool.eq_false_iff]
      simp only [ne_eq, List.all_eq_true, Bool.or_eq_true, beq_iff_eq, not_forall]
      exact ⟨e, he, by simp [hef]⟩
    have h3 : ((d :: ds).all
        (fun dt => dt.kind == NpKind.f || dt.kind == NpKind.i || dt.kind == NpKind.b)) = true := by
      simp only [List.all_eq_true, Bool.or_eq_true, beq_iff_eq]
      intro dt hdt
      rcases h dt hdt with h' | h' | h' <;> simp [h']
    simp [combine_types, h1, h2, h3]
  · obtain ⟨e, he, hec⟩ := hex
    have h1 : ((d :: ds).all fun dt => dt.kind == NpKind.b) = false := by
      rw [Bool.eq_false_iff]
      simp only [ne_eq, List.all_eq_true, beq_iff_eq, not_forall]
      exact ⟨e, he, by simp [hec]⟩
    have h2 : ((d :: ds).all fun dt => dt.kind == NpKind.i || dt.kind == NpKind.b) = false := by
      rw [Bool.eq_false_iff]
      simp only [ne_eq, List.all_eq_true, Bool.or_eq_true, beq_iff_eq, not_forall]
      exact ⟨e, he, by simp [hec]⟩
    have h3 : ((d :: ds).all
        (fun dt => dt.kind == NpKind.f || dt.kind == NpKind.i || dt.kind == NpKind.b)) = false := by
      rw [Bool.eq_false_iff]
      simp only [ne_eq, List.all_eq_true, Bool.or_eq_true, beq_iff_eq, not_forall]
      exact ⟨e, he, by simp [hec]⟩
    have h4 : ((d :: ds).all
        (fun dt => dt.kind == NpKind.c || dt.kind == NpKind.f || dt.kind == NpKind.i ||
          dt.kind == NpKind.b)) = true := by
      simp only [List.all_eq_true, Bool.or_eq_true, beq_iff_eq]
      intro dt _
      cases h' : dt.kind <;> simp
    simp [combine_types, h1, h2, h3, h4]

/-- C1 counterexample to the claim as stated: `combine_types(bool, int8)` is an
all-(bool|int) input whose widest int type present is int8 `(i, 1)`, yet the
code returns bool `(b, 1)` — Python's `max` keeps the first element on an
itemsize tie. -/
theorem combine_types_bool_int8_counterexample :
    combine_types none [⟨NpKind.b, 1⟩, ⟨NpKind.i, 1⟩] = Except.ok ⟨NpKind.b, 1⟩ ∧
    decide (combine_types none [⟨NpKind.b, 1⟩, ⟨NpKind.i, 1⟩] =
      Except.ok ⟨NpKind.i, 1⟩) = false := by
  exact ⟨rfl, rfl⟩

/-- C1 witness: the int tier of `combine_types_promotion` applied to the
concrete input `[int32, int64, bool]` yields int64. -/
theorem combine_types_promotion_witness :
    (∀ dt ∈ [(⟨NpKind.i, 4⟩ : NpDtype), ⟨NpKind.i, 8⟩, ⟨NpKind.b, 1⟩],
      dt.kind = NpKind.i ∨ dt.kind = NpKind.b) ∧
    combine_types none [⟨NpKind.i, 4⟩, ⟨NpKind.i, 8⟩, ⟨NpKind.b, 1⟩] =
      Except.ok ⟨NpKind.i, 8⟩ :=
  ⟨by decide,
    ((combine_types_promotion none ⟨NpKind.i, 4⟩ [⟨NpKind.i, 8⟩, ⟨NpKind.b, 1⟩]).2.1
      (by decide) (by decide)).1⟩

lemma indexOf_range' (d a len : Nat) (h1 : a ≤ d) (h2 : d < a + len) :
    (List.range' a len).indexOf d = d - a := by
  induction len generalizing a with
  | zero => omega
  | succ m ih =>
    rw [List.range'_succ]
    by_cases hda : d = a
    · subst hda; simp
    · rw [List.indexOf_cons_ne _ (by omega : a ≠ d), ih (a + 1) (by omega) (by omega)]
      omega

lemma cfPerm_length (n : Nat) (h : 2 ≤ n) : (cfPerm n).length = n := by
  simp [cfPerm]; omega

lemma clPerm_length (n : Nat) (h : 2 ≤ n) : (clPerm n).length = n := by
  simp [clPerm]; omega

lemma cfPerm_getD (n j : Nat) (h3 : 3 ≤ n) (hj : j < n) :
    (cfPerm n).getD j 0 = if j = 0 then 0 else if j = 1 then n - 1 else j - 1 := by
  rcases j with _ | _ | k
  · rfl
  · rfl
  · have hk : k < n - 2 := by omega
    have hif : (if k + 2 = 0 then 0 else if k + 2 = 1 then n - 1 else k + 2 - 1) = k + 1 := by
      simp
    rw [hif]
    simp only [cfPerm, List.getD_cons_succ]
    rw [List.getD_eq_getElem _ _ (by simpa using hk), List.getElem_range'_1]
    omega

lemma clPerm_getD (n j : Nat) (h3 : 3 ≤ n) (hj : j < n) :
    (clPerm n).getD j 0 = if j = 0 then 0 else if j = n - 1 then 1 else j + 1 := by
  rcases j with _ | k
  · rfl
  · simp only [clPerm, List.getD_cons_succ]
    by_cases hk : k < n - 2
    · have hif : (if k + 1 = 0 then 0 else if k + 1 = n - 1 then 1 else k + 1 + 1) = k + 2 := by
        rw [if_neg (by omega), if_neg (by omega)]
      rw [hif, List.getD_eq_getElem _ _ (by simp [List.length_range']; omega)]
      rw [List.getElem_append_left (by simpa using hk), List.getElem_range'_1]
      omega
    · have hk' : k = n - 2 := by omega
      have hif : (if k + 1 = 0 then 0 else if k + 1 = n - 1 then 1 else k + 1 + 1) = 1 := by
        rw [if_neg (by omega), if_pos (by omega)]
      rw [hif, List.getD_eq_getElem _ _ (by simp [List.length_range']; omega)]
      rw [List.getElem_append_right (by simp [List.length_range']; omega)]
      simp [List.length_range', hk']

lemma cfPerm_indexOf (n d : Nat) (h3 : 3 ≤ n) (hd : d < n) :
    (cfPerm n).indexOf d = if d = 0 then 0 else if d = n - 1 then 1 else d + 1 := by
  by_cases h0 : d = 0
  · subst h0; rfl
  · rw [if_neg h0]
    rw [cfPerm, List.indexOf_cons_ne _ (by omega : (0 : Nat) ≠ d)]
    by_cases h1 : d = n - 1
    · rw [if_pos h1, h1, List.indexOf_cons_self]
    · rw [if_neg h1, List.indexOf_cons_ne _ (by omega : n - 1 ≠ d)]
      rw [indexOf_range' d 1 (n - 2) (by omega) (by omega)]
      omega

lemma clPerm_indexOf (n d : Nat) (h3 : 3 ≤ n) (hd : d < n) :
    (clPerm n).indexOf d = if d = 0 then 0 else if d = 1 then n - 1 else d - 1 := by
  by_cases h0 : d = 0
  · subst h0; rfl
  · rw [if_neg h0, clPerm, List.indexOf_cons_ne _ (by omega : (0 : Nat) ≠ d)]
    by_cases h1 : d = 1
    · rw [if_pos h1, List.indexOf_append_of_not_mem (by rw [List.mem_range'_1]; omega)]
      rw [h1, List.indexOf_cons_self]
      simp [List.length_range']
      omega
    · rw [if_neg h1, List.indexOf_append_of_mem (by rw [List.mem_range'_1]; omega)]
      rw [indexOf_range' d 2 (n - 2) (by omega) (by omega)]
      omega

lemma invPerm_length (dims : List Nat) : (invPerm dims).length = dims.length := by
  simp [invPerm]

lemma gatherIdx_length (p l : List Nat) : (gatherIdx p l).length = p.length := by
  simp [gatherIdx]

lemma gatherIdx_getD (p l : List Nat) (j : Nat) (hj : j < p.length) :
    (gatherIdx p l).getD j 0 = l.getD (p.getD j 0) 0 := by
  rw [List.getD_eq_getElem _ _ (by rw [gatherIdx_length]; exact hj)]
  simp only [gatherIdx]
  rw [List.getElem_map, List.getD_eq_getElem _ _ hj]

lemma invPerm_getD (dims : List Nat) (j : Nat) (hj : j < dims.length) :
    (invPerm dims).getD j 0 = dims.indexOf j := by
  rw [List.getD_eq_getElem _ _ (by rw [invPerm_length]; exact hj)]
  simp only [invPerm]
  rw [List.getElem_map, List.getElem_range]

lemma invPerm_cfPerm (n : Nat) (h3 : 3 ≤ n) : invPerm (cfPerm n) = clPerm n := by
  have hcf := cfPerm_length n (by omega)
  have hcl := clPerm_length n (by omega)
  apply List.ext_getElem (by rw [invPerm_length, hcf, hcl])
  intro j hj1 hj2
  have hjn : j < n := by rw [invPerm_length, hcf] at hj1; exact hj1
  rw [← List.getD_eq_getElem _ 0, ← List.getD_eq_getElem _ 0]
  rw [invPerm_getD _ _ (by rw [hcf]; exact hjn)]
  rw [cfPerm_indexOf n j h3 hjn, clPerm_getD n j h3 hjn]

lemma invPerm_clPerm (n : Nat) (h3 : 3 ≤ n) : invPerm (clPerm n) = cfPerm n := by
  have hcf := cfPerm_length n (by omega)
  have hcl := clPerm_length n (by omega)
  apply List.ext_getElem (by rw [invPerm_length, hcf, hcl])
  intro j hj1 hj2
  have hjn : j < n := by rw [invPerm_length, hcl] at hj1; exact hj1
  rw [← List.getD_eq_getElem _ 0, ← List.getD_eq_getElem _ 0]
  rw [invPerm_getD _ _ (by rw [hcl]; exact hjn)]
  rw [clPerm_indexOf n j h3 hjn, cfPerm_getD n j h3 hjn]

lemma gather_cl_cf (n : Nat) (h3 : 3 ≤ n) (l : List Nat) (hl : l.length = n) :
    gatherIdx (clPerm n) (gatherIdx (cfPerm n) l) = l := by
  have hcf := cfPerm_length n (by omega)
  have hcl := clPerm_length n (by omega)
  apply List.ext_getElem (by rw [gatherIdx_length, hcl, hl])
  intro j hj1 hj2
  have hjn : j < n := by rw [gatherIdx_length, hcl] at hj1; exact hj1
  rw [← List.getD_eq_getElem _ 0, ← List.getD_eq_getElem _ 0]
  rw [gatherIdx_getD _ _ _ (by rw [hcl]; exact hjn)]
  rw [clPerm_getD n j h3 hjn]
  have hclj : (if j = 0 then 0 else if j = n - 1 then 1 else j + 1) < n := by
    split
    · omega
    · split <;> omega
  rw [gatherIdx_getD _ _ _ (by rw [hcf]; exact hclj)]
  rw [cfPerm_getD n _ h3 hclj]
  by_cases hj0 : j = 0
  · subst hj0; simp
  · by_cases hj1 : j = n - 1
    · rw [if_neg hj0, if_pos hj1, if_neg (by omega : ¬(1 : Nat) = 0), if_pos rfl, hj1]
    · rw [if_neg hj0, if_neg hj1, if_neg (by omega), if_neg (by omega)]
      rw [show j + 1 - 1 = j from rfl]

lemma gather_cf_cl (n : Nat) (h3 : 3 ≤ n) (l : List Nat) (hl : l.length = n) :
    gatherIdx (cfPerm n) (gatherIdx (clPerm n) l) = l := by
  have hcf := cfPerm_length n (by omega)
  have hcl := clPerm_length n (by omega)
  apply List.ext_getElem (by rw [gatherIdx_length, hcf, hl])
  intro j hj1 hj2
  have hjn : j < n := by rw [gatherIdx_length, hcf] at hj1; exact hj1
  rw [← List.getD_eq_getElem _ 0, ← List.getD_eq_getElem _ 0]
  rw [gatherIdx_getD _ _ _ (by rw [hcf]; exact hjn)]
  rw [cfPerm_getD n j h3 hjn]
  have hcfj : (if j = 0 then 0 else if j = 1 then n - 1 else j - 1) < n := by
    split
    · omega
    · split <;> omega
  rw [gatherIdx_getD _ _ _ (by rw [hcl]; exact hcfj)]
  rw [clPerm_getD n _ h3 hcfj]
  by_cases hj0 : j = 0
  · subst hj0; simp
  · by_cases hj1 : j = 1
    · rw [if_neg hj0, if_pos hj1, if_neg (by omega), if_pos rfl, hj1]
    · rw [if_neg hj0, if_neg hj1, if_neg (by omega), if_neg (by omega)]
      congr 1
      omega

/-- C2: on every tensor of rank at least 3, `channels_last ∘ channels_first`
and `channels_first ∘ channels_last` are the identity: the shape round-trips
exactly, and the value at every index vector of the tensor's rank
round-trips exactly. -/
theorem channels_first_channels_last_roundtrip (α : Type) (t : Tensor α)
    (h3 : 3 ≤ t.shape.length) :
    (channels_last (channels_first t)).shape = t.shape ∧
    (channels_first (channels_last t)).shape = t.shape ∧
    (∀ i : List Nat, i.length = t.shape.length →
      (channels_last (channels_first t)).data i = t.data i) ∧
    (∀ i : List Nat, i.length = t.shape.length →
      (channels_first (channels_last t)).data i = t.data i) := by
  set n := t.shape.length with hn
  have hcf := cfPerm_length n (by omega)
  have hcl := clPerm_length n (by omega)
  have hlen1 : (channels_first t).shape.length = n := by
    show (gatherIdx (cfPerm n) t.shape).length = n
    rw [gatherIdx_length, hcf]
  have hlen2 : (channels_last t).shape.length = n := by
    show (gatherIdx (clPerm n) t.shape).length = n
    rw [gatherIdx_length, hcl]
  refine ⟨?_, ?_, ?_, ?_⟩
  · show gatherIdx (clPerm (channels_first t).shape.length)
      (gatherIdx (cfPerm n) t.shape) = t.shape
    rw [hlen1]
    exact gather_cl_cf n h3 t.shape hn.symm
  · show gatherIdx (cfPerm (channels_last t).shape.length)
      (gatherIdx (clPerm n) t.shape) = t.shape
    rw [hlen2]
    exact gather_cf_cl n h3 t.shape hn.symm
  · intro i hi
    show t.data (gatherIdx (invPerm (cfPerm n))
      (gatherIdx (invPerm (clPerm (channels_first t).shape.length)) i)) = t.data i
    rw [hlen1, invPerm_cfPerm n h3, invPerm_clPerm n h3]
    rw [gather_cl_cf n h3 i hi]
  · intro i hi
    show t.data (gatherIdx (invPerm (clPerm n))
      (gatherIdx (invPerm (cfPerm (channels_last t).shape.length)) i)) = t.data i
    rw [hlen2, invPerm_cfPerm n h3, invPerm_clPerm n h3]
    rw [gather_cf_cl n h3 i hi]

/-- C2 witness: the round-trip theorem applied to a concrete rank-3 tensor of
shape `[2, 3, 4]`, evaluated at index `[1, 2, 3]`. -/
theorem channels_first_channels_last_roundtrip_witness :
    3 ≤ (Tensor.mk [2, 3, 4]
        (fun i => 100 * i.getD 0 0 + 10 * i.getD 1 0 + i.getD 2 0)).shape.length ∧
    (channels_last (channels_first (Tensor.mk [2, 3, 4]
        (fun i => 100 * i.getD 0 0 + 10 * i.getD 1 0 + i.getD 2 0)))).shape = [2, 3, 4] ∧
    (channels_last (channels_first (Tensor.mk [2, 3, 4]
        (fun i => 100 * i.getD 0 0 + 10 * i.getD 1 0 + i.getD 2 0)))).data [1, 2, 3] = 123 := by
  refine ⟨by decide, ?_, ?_⟩
  · exact (channels_first_channels_last_roundtrip Nat
      (Tensor.mk [2, 3, 4] (fun i => 100 * i.getD 0 0 + 10 * i.getD 1 0 + i.getD 2 0))
      (by decide)).1
  · rw [(channels_first_channels_last_roundtrip Nat
      (Tensor.mk [2, 3, 4] (fun i => 100 * i.getD 0 0 + 10 * i.getD 1 0 + i.getD 2 0))
      (by decide)).2.2.1 [1, 2, 3] (by decide)]
    rfl

/-- C5: the no-fixed-precision branch of `to_float` reads
`x.dtype.is_floating` (line 324), an attribute that does not exist on
`torch.dtype` (the real attribute is `is_floating_point`, used at line 74),
so with no fixed precision configured `to_float` raises `AttributeError` for
every tensor — a float32 tensor the claim says is returned unchanged is shown
concretely, then the failure universally.  The fixed-precision branches still
behave as claimed: 16/32/64 cast to half/single/double, and an unsupported
configured width (8 shown) raises `AssertionError` at the point of use. -/
theorem to_float_unset_precision_bug :
    to_float (fun _ (v : Int) => v) none false ⟨TorchDType.float32, 5⟩ =
      Except.error PyErr.attributeError ∧
    (∀ (α : Type) (castVal : TorchDType → α → α) (x : TorchTensor α),
      to_float castVal none false x = Except.error PyErr.attributeError) ∧
    (∀ (α : Type) (castVal : TorchDType → α → α) (x : TorchTensor α),
      to_float castVal (some 16) false x =
        Except.ok (castTensor castVal x TorchDType.float16) ∧
      to_float castVal (some 32) false x =
        Except.ok (castTensor castVal x TorchDType.float32) ∧
      to_float castVal (some 64) false x =
        Except.ok (castTensor castVal x TorchDType.float64)) ∧
    (∀ (α : Type) (castVal : TorchDType → α → α) (x : TorchTensor α),
      to_float castVal (some 8) false x = Except.error PyErr.assertionError) := by
  refine ⟨rfl, fun α castVal x => rfl, fun α castVal x => ⟨?_, ?_, ?_⟩, fun α castVal x => ?_⟩
  · simp [to_float]
  · simp [to_float]
  · simp [to_float]
  · simp [to_float]

/-- C6: `while_loop` with `maximum_iterations = k` performs
`(while_loop_count …).2 ≤ k` body evaluations, its result is `body` iterated
that many times from the initial `loop_vars`, `cond` held at every
intermediate state, and if the loop stopped before the iteration bound then
`cond` is false at the result (hence with the bound set the loop always
terminates and returns the final `loop_vars`). -/
theorem while_loop_spec (α : Type) (cond : α → Bool) (body : α → α) (v : α) (k : Nat) :
    while_loop cond body v k = (while_loop_count cond body v k).1 ∧
    (while_loop_count cond body v k).2 ≤ k ∧
    (while_loop_count cond body v k).1 = body^[(while_loop_count cond body v k).2] v ∧
    (∀ j, j < (while_loop_count cond body v k).2 → cond (body^[j] v) = true) ∧
    ((while_loop_count cond body v k).2 < k → cond (while_loop cond body v k) = false) := by
  induction k generalizing v with
  | zero =>
    refine ⟨rfl, le_rfl, by simp [while_loop_count], fun j hj => by simp [while_loop_count] at hj,
      fun h => absurd h (by simp [while_loop_count])⟩
  | succ k ih =>
    by_cases hcv : cond v = true
    · obtain ⟨ih1, ih2, ih3, ih4, ih5⟩ := ih (body v)
      refine ⟨?_, ?_, ?_, ?_, ?_⟩
      · simp [while_loop, while_loop_count, hcv, ih1]
      · simp only [while_loop_count, hcv, if_true]
        omega
      · simp only [while_loop_count, hcv, if_true]
        rw [ih3, Function.iterate_succ_apply]
      · intro j hj
        simp only [while_loop_count, hcv, if_true] at hj
        match j with
        | 0 => exact hcv
        | j' + 1 =>
          rw [Function.iterate_succ_apply]
          exact ih4 j' (by omega)
      · intro hlt
        simp only [while_loop_count, hcv, if_true] at hlt
        simp only [while_loop, hcv, if_true]
        exact ih5 (by omega)
    · rw [Bool.not_eq_true] at hcv
      refine ⟨?_, ?_, ?_, ?_, ?_⟩
      · simp [while_loop, while_loop_count, hcv]
      · simp [while_loop_count, hcv]
      · simp [while_loop_count, hcv]
      · intro j hj
        simp [while_loop_count, hcv] at hj
      · intro _
        simp [while_loop, hcv]

/-- C6 witness: with a condition that stays true forever,
`maximum_iterations = 3` stops the loop after exactly 3 body evaluations. -/
theorem while_loop_spec_witness :
    (while_loop_count (fun _ : Nat => true) (fun n => n + 1) 0 3).2 ≤ 3 ∧
    while_loop (fun _ : Nat => true) (fun n => n + 1) 0 3 = 3 :=
  ⟨(while_loop_spec Nat (fun _ => true) (fun n => n + 1) 0 3).2.1, by decide⟩

/-- C10: `divide_no_nan` equals `x / y` at every position where `y` is
nonzero and equals `0` at every position where `y` is zero; in particular a
zero divisor never propagates `nan` or `±inf` into the result, and at finite
entries the quotient is the exact division. -/
theorem divide_no_nan_spec (x y : Tensor ExtFloat) (i : List Nat) :
    (y.data i = ExtFloat.fin 0 → (divide_no_nan x y).data i = ExtFloat.fin 0) ∧
    (∀ q : ℚ, q ≠ 0 → y.data i = ExtFloat.fin q →
      (divide_no_nan x y).data i = tdiv (x.data i) (ExtFloat.fin q)) ∧
    (∀ a q : ℚ, q ≠ 0 → x.data i = ExtFloat.fin a → y.data i = ExtFloat.fin q →
      (divide_no_nan x y).data i = ExtFloat.fin (a / q)) := by
  refine ⟨?_, ?_, ?_⟩
  · intro h0
    simp [divide_no_nan, whereT, zeros_like, map2, eqZero, h0]
  · intro q hq hy
    simp [divide_no_nan, whereT, zeros_like, map2, eqZero, hy, hq]
  · intro a q hq hx hy
    simp [divide_no_nan, whereT, zeros_like, map2, eqZero, hx, hy, hq, tdiv]

/-- C10 witness: dividing the constant tensors `6` by `2` gives `6 / 2`, and
dividing by the zero tensor gives `0`. -/
theorem divide_no_nan_spec_witness :
    (divide_no_nan ⟨[1], fun _ => ExtFloat.fin 6⟩ ⟨[1], fun _ => ExtFloat.fin 2⟩).data [0] =
      ExtFloat.fin (6 / 2) ∧
    (divide_no_nan ⟨[1], fun _ => ExtFloat.fin 6⟩ ⟨[1], fun _ => ExtFloat.fin 0⟩).data [0] =
      ExtFloat.fin 0 :=
  ⟨(divide_no_nan_spec ⟨[1], fun _ => ExtFloat.fin 6⟩ ⟨[1], fun _ => ExtFloat.fin 2⟩ [0]).2.2
      6 2 (by norm_num) rfl rfl,
    (divide_no_nan_spec ⟨[1], fun _ => ExtFloat.fin 6⟩ ⟨[1], fun _ => ExtFloat.fin 0⟩ [0]).1 rfl⟩

/-- C9: balanced pairwise concatenation of a non-empty list of `N` dataset
sources yields exactly the naive left-to-right concatenation of their
examples, and the recursion depth is bounded by `⌈log₂ N⌉ + 1` — logarithmic
in `N`, so no recursion-depth failure occurs even for hundreds of sources. -/
theorem concat_datasets_spec (α : Type) (datasets : List (List α)) (h : datasets ≠ []) :
    concat_datasets datasets = Except.ok datasets.flatten ∧
    concat_depth datasets ≤ Nat.clog 2 datasets.length + 1 := by
  suffices H : ∀ n (ds : List (List α)), ds.length ≤ n → ds ≠ [] →
      concat_datasets ds = Except.ok ds.flatten ∧
      concat_depth ds ≤ Nat.clog 2 ds.length + 1 from
    H datasets.length datasets le_rfl h
  intro n
  induction n with
  | zero =>
    intro ds hlen hne
    cases ds with
    | nil => exact absurd rfl hne
    | cons a t => simp at hlen
  | succ n ih =>
    intro ds hlen hne
    have hpos : 0 < ds.length := List.length_pos.mpr hne
    by_cases h1 : ds.length = 1
    · match ds, h1 with
      | [d], _ =>
        constructor
        · rw [concat_datasets]
          simp
        · rw [concat_depth]
          simp
    · have h2 : 2 ≤ ds.length := by omega
      have hc1 : 1 ≤ ds.length / 2 := by omega
      have hclt : ds.length / 2 < ds.length := by omega
      have htl : (ds.take (ds.length / 2)).length = ds.length / 2 := by
        rw [List.length_take]; omega
      have hdl : (ds.drop (ds.length / 2)).length = ds.length - ds.length / 2 := by
        rw [List.length_drop]
      have htne : ds.take (ds.length / 2) ≠ [] := by
        intro hx
        have := congrArg List.length hx
        rw [htl] at this
        simp at this
        omega
      have hdne : ds.drop (ds.length / 2) ≠ [] := by
        intro hx
        have := congrArg List.length hx
        rw [hdl] at this
        simp at this
        omega
      obtain ⟨e1, p1⟩ := ih (ds.take (ds.length / 2)) (by omega) htne
      obtain ⟨e2, p2⟩ := ih (ds.drop (ds.length / 2)) (by omega) hdne
      constructor
      · rw [concat_datasets, if_neg (by omega), if_neg h1, e1, e2]
        simp only []
        rw [← List.flatten_append, List.take_append_drop]
      · rw [concat_depth, if_neg (by omega)]
        have key : Nat.clog 2 ds.length = Nat.clog 2 ((ds.length + 1) / 2) + 1 := by
          rw [Nat.clog_of_two_le (by norm_num) h2]
          have hx : ds.length + 2 - 1 = ds.length + 1 := by omega
          rw [hx]
        have hm1 : Nat.clog 2 (ds.take (ds.length / 2)).length ≤
            Nat.clog 2 ((ds.length + 1) / 2) := by
          apply Nat.clog_mono_right
          rw [htl]; omega
        have hm2 : Nat.clog 2 (ds.drop (ds.length / 2)).length ≤
            Nat.clog 2 ((ds.length + 1) / 2) := by
          apply Nat.clog_mono_right
          rw [hdl]; omega
        omega

/-- C9 witness: three sources concatenate to the naive order, with depth
within the logarithmic bound. -/
theorem concat_datasets_spec_witness :
    concat_datasets [[1], [2, 3], [4]] = Except.ok [1, 2, 3, 4] ∧
    concat_depth ([[1], [2, 3], [4]] : List (List Nat)) ≤ Nat.clog 2 3 + 1 :=
  concat_datasets_spec Nat [[1], [2, 3], [4]] (by decide)

lemma resolve_padding_same (kernel : List Nat) :
    resolve_padding kernel "same" =
      Except.ok (ConvPadArg.list (kernel.flatMap (fun d => [d / 2, (d + 1) / 2]))) := by
  have h1 : ¬(pyLower "same" = "valid") := by decide
  have h2 : pyLower "same" = "same" := by decide
  rw [resolve_padding, if_neg h1, if_pos h2]

lemma flat_pairs_length (l : List Nat) :
    (l.flatMap (fun d => [d / 2, (d + 1) / 2])).length = 2 * l.length := by
  induction l with
  | nil => rfl
  | cons a t ih => simp [List.flatMap_cons, ih]; omega

lemma kernPerm_length (n : Nat) : (kernPerm n).length = 2 + (n - 2) := by
  simp [kernPerm]
  omega

/-- C7: the `'same'` padding path of `conv` is broken — for every tensor and
kernel it raises instead of producing an output whose spatial shape matches
the input: the flat per-side pad-pair list it builds has one pair per kernel
dim (including the two channel dims), which the conv primitive rejects since
it expects one symmetric pad per spatial dim.  Shown at a concrete 1-D input
of spatial size 5 with a spatial-size-3 kernel, and in general. -/
theorem conv_same_never_preserves_shape :
    conv [1, 5, 1] [3, 1, 1] "same" = Except.error PyErr.runtimeError ∧
    (∀ tensor kernel : List Nat, ∃ e : PyErr, conv tensor kernel "same" = Except.error e) := by
  constructor
  · rw [conv, resolve_padding_same]
    rfl
  · intro tensor kernel
    rw [conv, resolve_padding_same]
    by_cases hrank : tensor.length = 3 ∨ tensor.length = 4 ∨ tensor.length = 5
    · simp only [if_pos hrank]
      have ht1 : (gatherIdx (cfPerm tensor.length) tensor).length = tensor.length := by
        rw [gatherIdx_length, cfPerm_length _ (by omega)]
      have hk1 : (gatherIdx (kernPerm kernel.length) kernel).length = 2 + (kernel.length - 2) := by
        rw [gatherIdx_length, kernPerm_length]
      by_cases hL : (kernel.flatMap (fun d => [d / 2, (d + 1) / 2])).length =
          (gatherIdx (cfPerm tensor.length) tensor).length - 2
      · -- the pad list length happens to match the spatial rank: then the
        -- kernel has at most one dim, so the weight-rank check fails
        have hklen : kernel.length ≤ 1 := by
          rw [flat_pairs_length, ht1] at hL
          omega
        rw [torchf_conv_shape]
        simp only [if_pos hL]
        rw [if_neg]
        · exact ⟨PyErr.runtimeError, rfl⟩
        · intro hcon
          have := hcon.1
          rw [hk1, ht1] at this
          omega
      · rw [torchf_conv_shape]
        simp only [if_neg hL]
        exact ⟨PyErr.runtimeError, rfl⟩
    · simp only [if_neg hrank]
      exact ⟨PyErr.keyError, rfl⟩

/-- C8: `gather_nd` with `batch_dims = 0` indexes `values` directly by the
coordinate tuples in `indices`; with `batch_dims = 1` and aligned leading
axes it restacks the per-batch-element gathers along axis 0, so reading the
result at batch entry `b` is exactly the `batch_dims = 0` gather of the `b`-th
slices; every `batch_dims ≥ 2` raises `NotImplementedError`, a constructor
distinct from value and type errors. -/
theorem gather_nd_spec (α : Type) [Inhabited α] (values : Tensor α) (indices : Tensor Nat) :
    (gather_nd values indices 0 = Except.ok (advIndex values indices)) ∧
    (∀ B : Nat, values.shape.headD 0 = B → indices.shape.headD 0 = B →
      gather_nd values indices 1 = Except.ok (stack0 ((List.range B).map
        (fun b => advIndex (slice0 values b) (slice0 indices b)))) ∧
      (∀ b, b < B → ∀ o : List Nat,
        (stack0 ((List.range B).map
          (fun b' => advIndex (slice0 values b') (slice0 indices b')))).data (b :: o) =
          (advIndex (slice0 values b) (slice0 indices b)).data o)) ∧
    (∀ bd : Nat, 2 ≤ bd → gather_nd values indices bd = Except.error PyErr.notImplementedError) ∧
    decide (PyErr.notImplementedError = PyErr.valueError) = false ∧
    decide (PyErr.notImplementedError = PyErr.typeError) = false := by
  refine ⟨rfl, ?_, ?_, rfl, rfl⟩
  · intro B hv hi
    constructor
    · have hcd : combined_dim (values.shape.headD 0) (indices.shape.headD 0) = some B := by
        rw [hv, hi, combined_dim, if_pos rfl]
      simp only [gather_nd, if_neg (by omega : ¬(1 : Nat) = 0), if_pos rfl, hcd, if_true]
    · intro b hb o
      simp only [stack0, List.headD_cons, List.tail_cons]
      have hget : ((List.range B).map
          (fun b' => advIndex (slice0 values b') (slice0 indices b'))).getD b
            ⟨[], fun _ => default⟩ = advIndex (slice0 values b) (slice0 indices b) := by
        rw [List.getD_eq_getElem _ _ (by simpa using hb), List.getElem_map, List.getElem_range]
      rw [hget]
  · intro bd hbd
    have h0 : bd ≠ 0 := by omega
    have h1 : bd ≠ 1 := by omega
    simp [gather_nd, h0, h1]

/-- C8 witness: a batch of two 2×2 value matrices gathered with one index
tuple per batch element; entry `b = 1` of the stacked result equals the
direct gather of the slices at 1. -/
theorem gather_nd_spec_witness :
    gather_nd (⟨[2, 2], fun o => 10 * o.getD 0 0 + o.getD 1 0⟩ : Tensor Nat)
        ⟨[2, 1, 1], fun _ => 1⟩ 1 =
      Except.ok (stack0 ((List.range 2).map (fun b =>
        advIndex (slice0 (⟨[2, 2], fun o => 10 * o.getD 0 0 + o.getD 1 0⟩ : Tensor Nat) b)
          (slice0 (⟨[2, 1, 1], fun _ => 1⟩ : Tensor Nat) b)))) ∧
    (stack0 ((List.range 2).map (fun b =>
        advIndex (slice0 (⟨[2, 2], fun o => 10 * o.getD 0 0 + o.getD 1 0⟩ : Tensor Nat) b)
          (slice0 (⟨[2, 1, 1], fun _ => 1⟩ : Tensor Nat) b)))).data [1, 0] = 11 := by
  have h := (gather_nd_spec Nat ⟨[2, 2], fun o => 10 * o.getD 0 0 + o.getD 1 0⟩
    ⟨[2, 1, 1], fun _ => 1⟩).2.1 2 rfl rfl
  exact ⟨h.1, by rw [h.2 1 (by decide) [0]]; rfl⟩

lemma axisMap_isSome_of_ne_constant (m : PadMode) (w : Nat × Nat) (s i : Nat)
    (hm : m ≠ PadMode.constant) : (axisMap m w s i).isSome := by
  cases m with
  | constant => exact absurd rfl hm
  | symmetric => simp [axisMap]
  | circular => simp [axisMap]
  | reflect => simp [axisMap]
  | replicate => simp [axisMap]

lemma axisMap_zero (m : PadMode) (s i : Nat) (hs : 0 < s) (hi : i < s) :
    axisMap m (0, 0) s i = some i := by
  cases m with
  | constant => simp [axisMap]; omega
  | symmetric =>
    simp only [axisMap]
    rw [if_neg (by omega), if_pos (by omega : i - 0 < s)]
    simp
  | circular =>
    simp only [axisMap]
    rw [show ((i : Int) - ((0 : Nat) : Int)) = (i : Int) by omega]
    rw [Int.emod_eq_of_lt (by omega) (by exact_mod_cast hi)]
    simp
  | reflect =>
    simp only [axisMap]
    rw [if_neg (by omega), if_pos (by omega : i - 0 < s)]
    simp
  | replicate =>
    simp only [axisMap]
    rw [show min (i - 0) (s - 1) = i by omega]

lemma axisMap_lt (m : PadMode) (w : Nat × Nat) (s i j : Nat)
    (hok : widthOkAt m w s) (hs : 0 < s) (_hi : i < w.1 + s + w.2)
    (hj : axisMap m w s i = some j) : j < s := by
  cases m with
  | constant =>
    simp only [axisMap] at hj
    split at hj
    · cases hj; omega
    · cases hj
  | symmetric =>
    obtain ⟨h1, h2⟩ := hok
    simp only [axisMap, Option.some.injEq] at hj
    subst hj
    split
    · omega
    · split <;> omega
  | circular =>
    simp only [axisMap, Option.some.injEq] at hj
    subst hj
    have hpos : (0 : Int) < (s : Int) := by exact_mod_cast hs
    have h1 : ((i : Int) - (w.1 : Int)) % (s : Int) < (s : Int) :=
      Int.emod_lt_of_pos _ hpos
    have h2 : 0 ≤ ((i : Int) - (w.1 : Int)) % (s : Int) :=
      Int.emod_nonneg _ (by omega)
    omega
  | reflect =>
    obtain ⟨h1, h2⟩ := hok
    simp only [axisMap, Option.some.injEq] at hj
    subst hj
    split
    · omega
    · split <;> omega
  | replicate =>
    simp only [axisMap, Option.some.injEq] at hj
    subst hj
    omega

lemma gridEquiv_refl (g : Grid α) : GridEquiv g g :=
  ⟨rfl, fun _ _ => rfl, fun _ _ => rfl⟩

lemma gridEquiv_trans {g h u : Grid α} (e1 : GridEquiv g h) (e2 : GridEquiv h u) :
    GridEquiv g u := by
  obtain ⟨r1, s1, d1⟩ := e1
  obtain ⟨r2, s2, d2⟩ := e2
  refine ⟨r1.trans r2, fun k hk => (s1 k hk).trans (s2 k (r1 ▸ hk)), fun i hi => ?_⟩
  rw [d1 i hi]
  exact d2 i (fun k hk => by rw [← s1 k (r1 ▸ hk)]; exact hi k (r1 ▸ hk))

lemma posShape_applyPass (p : PadPass α) (g : Grid α) (hpos : PosShape g) :
    PosShape (applyPass p g) := by
  intro k hk
  have := hpos k hk
  show 0 < (p.width k).1 + g.shape k + (p.width k).2
  omega

lemma widthOkAt_zero (m : PadMode) (s : Nat) (hs : 0 < s) : widthOkAt m (0, 0) s := by
  cases m with
  | constant => trivial
  | symmetric => exact ⟨Nat.zero_le s, Nat.zero_le s⟩
  | circular => trivial
  | reflect => exact ⟨hs, hs⟩
  | replicate => trivial

lemma validPass_applyPass (r p : PadPass α) (g : Grid α)
    (hd : DisjointPasses g.rank r p) (hv : ValidPass r g) (hpos : PosShape g) :
    ValidPass r (applyPass p g) := by
  intro k hk
  show widthOkAt r.mode (r.width k) ((p.width k).1 + g.shape k + (p.width k).2)
  rcases hd k hk with h0 | h0
  · rw [h0]
    exact widthOkAt_zero _ _ (by have := hpos k hk; omega)
  · rw [h0]
    have : (0 : Nat) + g.shape k + 0 = g.shape k := by omega
    rw [this]
    exact hv k hk

lemma validPass_of_equiv (r : PadPass α) {g h : Grid α} (e : GridEquiv g h)
    (hv : ValidPass r g) : ValidPass r h := by
  intro k hk
  rw [← e.2.1 k (e.1 ▸ hk)]
  exact hv k (e.1 ▸ hk)

lemma posShape_of_equiv {g h : Grid α} (e : GridEquiv g h) (hpos : PosShape g) :
    PosShape h := by
  intro k hk
  rw [← e.2.1 k (e.1 ▸ hk)]
  exact hpos k (e.1 ▸ hk)

lemma single_mode_rank [Inhabited α] (v : Grid α) (w : Nat → Nat × Nat)
    (m : PadMode) (c : α) :
    (single_mode_single_constant_pad v w m c).rank = v.rank := by
  cases m with
  | constant => rfl
  | symmetric =>
    rw [single_mode_single_constant_pad]
    split <;> rfl
  | circular => rfl
  | reflect => rfl
  | replicate => rfl

lemma single_mode_eq_effPass [Inhabited α] (v : Grid α) (w : Nat → Nat × Nat)
    (m : PadMode) (c : α) :
    single_mode_single_constant_pad v w m c = applyPass (effPass v.rank ⟨w, m, c⟩) v := by
  cases m with
  | constant => rfl
  | symmetric =>
    rw [single_mode_single_constant_pad, effPass]
    split <;> rfl
  | circular => rfl
  | reflect => rfl
  | replicate => rfl

lemma pad_passes_eq_foldl [Inhabited α] (t : Grid α) (specs : List (PassSpec α)) :
    pad_passes t specs =
      (specs.map (effPass t.rank)).foldl (fun x r => applyPass r x) t := by
  induction specs generalizing t with
  | nil => rfl
  | cons s l ih =>
    show pad_passes (single_mode_single_constant_pad t s.width s.mode s.cval) l = _
    rw [ih]
    have hr : (single_mode_single_constant_pad t s.width s.mode s.cval).rank = t.rank :=
      single_mode_rank t s.width s.mode s.cval
    rw [hr, List.map_cons, List.foldl_cons]
    congr 1
    have : (⟨s.width, s.mode, s.cval⟩ : PassSpec α) = s := rfl
    rw [← this, ← single_mode_eq_effPass]

lemma applyPass_pair_data (p q : PadPass α) (g : Grid α)
    (hd : DisjointPasses g.rank p q)
    (hvq : ValidPass q g) (hpos : PosShape g)
    (i : Nat → Nat)
    (hb : ∀ k, k < g.rank →
      i k < (q.width k).1 + ((p.width k).1 + g.shape k + (p.width k).2) + (q.width k).2) :
    (applyPass q (applyPass p g)).data i =
      if ∀ k, k < g.rank → q.width k = (0, 0) ∨
          (axisMap q.mode (q.width k) (g.shape k) (i k)).isSome then
        (if ∀ k, k < g.rank → p.width k = (0, 0) ∨
            (axisMap p.mode (p.width k) (g.shape k) (i k)).isSome then
          g.data (fun k =>
            if k < g.rank then
              (if p.width k = (0, 0) then
                (axisMap q.mode (q.width k) (g.shape k) (i k)).getD 0
               else (axisMap p.mode (p.width k) (g.shape k) (i k)).getD 0)
            else i k)
         else p.cval)
      else q.cval := by
  have hsp0 : ∀ k, p.width k = (0, 0) →
      (p.width k).1 + g.shape k + (p.width k).2 = g.shape k := by
    intro k h; rw [h]; simp
  have hibound : ∀ k, k < g.rank → q.width k = (0, 0) →
      i k < (p.width k).1 + g.shape k + (p.width k).2 := by
    intro k hk h
    have hbk := hb k hk
    rw [h] at hbk
    simpa using hbk
  have hibound' : ∀ k, k < g.rank → p.width k = (0, 0) →
      i k < (q.width k).1 + g.shape k + (q.width k).2 := by
    intro k hk h
    have hbk := hb k hk
    rw [h] at hbk
    simpa using hbk
  have hAQ : (∀ k, k < g.rank →
      (axisMap q.mode (q.width k)
        ((p.width k).1 + g.shape k + (p.width k).2) (i k)).isSome) ↔
      (∀ k, k < g.rank → q.width k = (0, 0) ∨
        (axisMap q.mode (q.width k) (g.shape k) (i k)).isSome) := by
    apply forall_congr'
    intro k
    apply imp_congr_right
    intro hk
    rcases hd k hk with h0 | h0
    · rw [hsp0 k h0]
      constructor
      · intro hx; exact Or.inr hx
      · intro hx
        rcases hx with hq0 | hsome
        · rw [hq0, axisMap_zero q.mode _ _ (hpos k hk)
            (by have := hibound k hk hq0; rw [hsp0 k h0] at this; exact this)]
          rfl
        · exact hsome
    · constructor
      · intro _; exact Or.inl h0
      · intro _
        rw [h0, axisMap_zero q.mode _ _ (by have := hpos k hk; omega)
          (hibound k hk h0)]
        rfl
  have hAP : (∀ k, k < g.rank →
      (axisMap p.mode (p.width k) (g.shape k)
        (if k < g.rank then
          (axisMap q.mode (q.width k)
            ((p.width k).1 + g.shape k + (p.width k).2) (i k)).getD 0
         else i k)).isSome) ↔
      (∀ k, k < g.rank → p.width k = (0, 0) ∨
        (axisMap p.mode (p.width k) (g.shape k) (i k)).isSome) := by
    apply forall_congr'
    intro k
    apply imp_congr_right
    intro hk
    rw [if_pos hk]
    rcases hd k hk with h0 | h0
    · -- p pads nothing on axis k: both sides hold
      have harg : (axisMap q.mode (q.width k) (g.shape k) (i k)).getD 0 < g.shape k := by
        cases hqm : axisMap q.mode (q.width k) (g.shape k) (i k) with
        | none => simpa using hpos k hk
        | some j =>
          have := axisMap_lt q.mode (q.width k) (g.shape k) (i k) j (hvq k hk)
            (hpos k hk) (hibound' k hk h0) hqm
          simpa using this
      constructor
      · intro _; exact Or.inl h0
      · intro _
        rw [hsp0 k h0, h0, axisMap_zero p.mode _ _ (hpos k hk) harg]
        rfl
    · -- q pads nothing on axis k: the argument is `i k` itself
      have harg : (axisMap q.mode (q.width k)
          ((p.width k).1 + g.shape k + (p.width k).2) (i k)).getD 0 = i k := by
        rw [h0, axisMap_zero q.mode _ _ (by have := hpos k hk; omega)
          (hibound k hk h0)]
        rfl
      rw [harg]
      by_cases hp0 : p.width k = (0, 0)
      · constructor
        · intro _; exact Or.inl hp0
        · intro _
          rw [hp0, axisMap_zero p.mode _ _ (hpos k hk)
            (by have := hibound k hk h0; rw [hsp0 k hp0] at this; exact this)]
          rfl
      · constructor
        · intro hx; exact Or.inr hx
        · intro hx; exact hx.resolve_left hp0
  simp only [applyPass]
  by_cases h1 : ∀ k, k < g.rank → q.width k = (0, 0) ∨
      (axisMap q.mode (q.width k) (g.shape k) (i k)).isSome
  · rw [if_pos (hAQ.mpr h1), if_pos h1]
    by_cases h2 : ∀ k, k < g.rank → p.width k = (0, 0) ∨
        (axisMap p.mode (p.width k) (g.shape k) (i k)).isSome
    · rw [if_pos (hAP.mpr h2), if_pos h2]
      apply congrArg
      funext k
      by_cases hk : k < g.rank
      · simp only [if_pos hk]
        rcases hd k hk with h0 | h0
        · rw [if_pos h0]
          cases hqm : axisMap q.mode (q.width k) (g.shape k) (i k) with
          | none =>
            have hq' : axisMap q.mode (q.width k)
                ((p.width k).1 + g.shape k + (p.width k).2) (i k) = none := by
              rw [hsp0 k h0]; exact hqm
            rw [hq']
            show (axisMap p.mode (p.width k) (g.shape k) 0).getD 0 = 0
            rw [h0, axisMap_zero p.mode _ _ (hpos k hk) (hpos k hk)]
            rfl
          | some j =>
            have hq' : axisMap q.mode (q.width k)
                ((p.width k).1 + g.shape k + (p.width k).2) (i k) = some j := by
              rw [hsp0 k h0]; exact hqm
            have hj : j < g.shape k := axisMap_lt q.mode (q.width k) (g.shape k) (i k) j
              (hvq k hk) (hpos k hk) (hibound' k hk h0) hqm
            rw [hq']
            show (axisMap p.mode (p.width k) (g.shape k) j).getD 0 = j
            rw [h0, axisMap_zero p.mode _ _ (hpos k hk) hj]
            rfl
        · have harg : axisMap q.mode (q.width k)
              ((p.width k).1 + g.shape k + (p.width k).2) (i k) = some (i k) := by
            rw [h0, axisMap_zero q.mode _ _ (by have := hpos k hk; omega)
              (hibound k hk h0)]
          rw [harg]
          simp only [Option.getD_some]
          by_cases hp0 : p.width k = (0, 0)
          · rw [if_pos hp0]
            have hik : i k < g.shape k := by
              have := hibound k hk h0; rw [hsp0 k hp0] at this; exact this
            rw [h0, hp0, axisMap_zero p.mode _ _ (hpos k hk) hik,
              axisMap_zero q.mode _ _ (hpos k hk) hik]
          · rw [if_neg hp0]
      · simp only [if_neg hk]
    · rw [if_neg (fun hh => h2 (hAP.mp hh)), if_neg h2]
  · rw [if_neg (fun hh => h1 (hAQ.mp hh)), if_neg h1]

lemma applyPass_swap (p q : PadPass α) (g : Grid α)
    (hd : DisjointPasses g.rank p q)
    (hc : p.mode = PadMode.constant → q.mode = PadMode.constant → p.cval = q.cval)
    (hvp : ValidPass p g) (hvq : ValidPass q g) (hpos : PosShape g) :
    GridEquiv (applyPass q (applyPass p g)) (applyPass p (applyPass q g)) := by
  refine ⟨rfl, ?_, ?_⟩
  · intro k hk
    show (q.width k).1 + ((p.width k).1 + g.shape k + (p.width k).2) + (q.width k).2 =
      (p.width k).1 + ((q.width k).1 + g.shape k + (q.width k).2) + (p.width k).2
    omega
  · intro i hbound
    have hb : ∀ k, k < g.rank →
        i k < (q.width k).1 + ((p.width k).1 + g.shape k + (p.width k).2) + (q.width k).2 :=
      hbound
    have hb' : ∀ k, k < g.rank →
        i k < (p.width k).1 + ((q.width k).1 + g.shape k + (q.width k).2) + (p.width k).2 := by
      intro k hk
      have := hb k hk
      omega
    have hd' : DisjointPasses g.rank q p := fun k hk => (hd k hk).symm
    rw [applyPass_pair_data p q g hd hvq hpos i hb,
      applyPass_pair_data q p g hd' hvp hpos i hb']
    by_cases hAQ : ∀ k, k < g.rank → q.width k = (0, 0) ∨
        (axisMap q.mode (q.width k) (g.shape k) (i k)).isSome
    · by_cases hAP : ∀ k, k < g.rank → p.width k = (0, 0) ∨
          (axisMap p.mode (p.width k) (g.shape k) (i k)).isSome
      · rw [if_pos hAQ, if_pos hAP, if_pos hAP, if_pos hAQ]
        apply congrArg
        funext k
        by_cases hk : k < g.rank
        · rw [if_pos hk, if_pos hk]
          by_cases hp0 : p.width k = (0, 0)
          · rw [if_pos hp0]
            by_cases hq0 : q.width k = (0, 0)
            · rw [if_pos hq0]
              have hik : i k < g.shape k := by
                have := hb k hk
                rw [hp0, hq0] at this
                simpa using this
              rw [hp0, hq0, axisMap_zero q.mode _ _ (hpos k hk) hik,
                axisMap_zero p.mode _ _ (hpos k hk) hik]
            · rw [if_neg hq0]
          · rw [if_neg hp0]
            have hq0 : q.width k = (0, 0) := (hd k hk).resolve_left hp0
            rw [if_pos hq0]
        · rw [if_neg hk, if_neg hk]
      · rw [if_pos hAQ, if_neg hAP, if_neg hAP]
    · by_cases hAP : ∀ k, k < g.rank → p.width k = (0, 0) ∨
          (axisMap p.mode (p.width k) (g.shape k) (i k)).isSome
      · rw [if_neg hAQ, if_pos hAP, if_neg hAQ]
      · have hqc : q.mode = PadMode.constant := by
          by_contra hqc
          exact hAQ (fun k hk =>
            Or.inr (axisMap_isSome_of_ne_constant q.mode _ _ _ hqc))
        have hpc : p.mode = PadMode.constant := by
          by_contra hpc
          exact hAP (fun k hk =>
            Or.inr (axisMap_isSome_of_ne_constant p.mode _ _ _ hpc))
        rw [if_neg hAQ, if_neg hAP]
        exact (hc hpc hqc).symm

lemma applyPass_congr (r : PadPass α) {g h : Grid α} (e : GridEquiv g h)
    (hv : ValidPass r g) (hpos : PosShape g) :
    GridEquiv (applyPass r g) (applyPass r h) := by
  obtain ⟨er, es, ed⟩ := e
  refine ⟨er, ?_, ?_⟩
  · intro k hk
    show (r.width k).1 + g.shape k + (r.width k).2 = (r.width k).1 + h.shape k + (r.width k).2
    rw [es k hk]
  · intro i hbi
    have hbi' : ∀ k, k < g.rank → i k < (r.width k).1 + g.shape k + (r.width k).2 := hbi
    simp only [applyPass]
    have hcond : (∀ k, k < g.rank → (axisMap r.mode (r.width k) (g.shape k) (i k)).isSome) ↔
        (∀ k, k < h.rank → (axisMap r.mode (r.width k) (h.shape k) (i k)).isSome) := by
      constructor
      · intro H k hk
        rw [← es k (by omega)]
        exact H k (by omega)
      · intro H k hk
        rw [es k hk]
        exact H k (by omega)
    by_cases hcg : ∀ k, k < g.rank → (axisMap r.mode (r.width k) (g.shape k) (i k)).isSome
    · rw [if_pos hcg, if_pos (hcond.mp hcg)]
      have hidx : (fun k => if k < h.rank then
            (axisMap r.mode (r.width k) (h.shape k) (i k)).getD 0 else i k) =
          (fun k => if k < g.rank then
            (axisMap r.mode (r.width k) (g.shape k) (i k)).getD 0 else i k) := by
        funext k
        by_cases hk : k < g.rank
        · rw [if_pos hk, if_pos (by omega : k < h.rank), ← es k hk]
        · rw [if_neg hk, if_neg (by omega : ¬k < h.rank)]
      rw [hidx]
      apply ed
      intro k hk
      rw [if_pos hk]
      cases hm : axisMap r.mode (r.width k) (g.shape k) (i k) with
      | none => simpa using hpos k hk
      | some j =>
        have := axisMap_lt r.mode (r.width k) (g.shape k) (i k) j (hv k hk)
          (hpos k hk) (hbi' k hk) hm
        simpa using this
    · rw [if_neg hcg, if_neg (fun hh => hcg (hcond.mpr hh))]

lemma foldl_pad_congr (L : List (PadPass α)) {g h : Grid α} (e : GridEquiv g h)
    (hv : ∀ r ∈ L, ValidPass r g)
    (hd : L.Pairwise (DisjointPasses g.rank))
    (hpos : PosShape g) :
    GridEquiv (L.foldl (fun x r => applyPass r x) g)
      (L.foldl (fun x r => applyPass r x) h) := by
  induction L generalizing g h with
  | nil => exact e
  | cons r L ih =>
    rw [List.foldl_cons, List.foldl_cons]
    have hco := List.pairwise_cons.mp hd
    have e' := applyPass_congr r e (hv r (List.mem_cons_self r L)) hpos
    have hv' : ∀ r' ∈ L, ValidPass r' (applyPass r g) := fun r' hr' =>
      validPass_applyPass r' r g (fun k hk => (hco.1 r' hr' k hk).symm)
        (hv r' (List.mem_cons_of_mem r hr')) hpos
    exact ih e' hv' hco.2 (posShape_applyPass r g hpos)

lemma foldl_pad_perm : ∀ {L L' : List (PadPass α)}, L.Perm L' → ∀ g : Grid α,
    (∀ r ∈ L, ValidPass r g) → L.Pairwise (DisjointPasses g.rank) →
    (∀ p ∈ L, ∀ q ∈ L, p.mode = PadMode.constant → q.mode = PadMode.constant →
      p.cval = q.cval) →
    PosShape g →
    GridEquiv (L.foldl (fun x r => applyPass r x) g)
      (L'.foldl (fun x r => applyPass r x) g) := by
  intro L L' hperm
  induction hperm with
  | nil =>
    intro g _ _ _ _
    exact gridEquiv_refl g
  | cons x h ih =>
    intro g hv hd hc hpos
    rw [List.foldl_cons, List.foldl_cons]
    have hco := List.pairwise_cons.mp hd
    apply ih
    · intro r hr
      exact validPass_applyPass r x g (fun k hk => (hco.1 r hr k hk).symm)
        (hv r (List.mem_cons_of_mem x hr)) hpos
    · exact hco.2
    · intro p hp q hq
      exact hc p (List.mem_cons_of_mem x hp) q (List.mem_cons_of_mem x hq)
    · exact posShape_applyPass x g hpos
  | swap x y l =>
    intro g hv hd hc hpos
    rw [List.foldl_cons, List.foldl_cons, List.foldl_cons, List.foldl_cons]
    have hco := List.pairwise_cons.mp hd
    have hco2 := List.pairwise_cons.mp hco.2
    have hxy : DisjointPasses g.rank y x := hco.1 x (List.mem_cons_self x l)
    have hvy : ValidPass y g := hv y (List.mem_cons_self y (x :: l))
    have hvx : ValidPass x g :=
      hv x (List.mem_cons_of_mem y (List.mem_cons_self x l))
    have hcyx : y.mode = PadMode.constant → x.mode = PadMode.constant →
        y.cval = x.cval :=
      hc y (List.mem_cons_self y (x :: l)) x
        (List.mem_cons_of_mem y (List.mem_cons_self x l))
    have e := applyPass_swap y x g hxy hcyx hvy hvx hpos
    apply foldl_pad_congr l e
    · intro r hr
      have hv1 : ValidPass r (applyPass y g) :=
        validPass_applyPass r y g
          (fun k hk => (hco.1 r (List.mem_cons_of_mem x hr) k hk).symm)
          (hv r (List.mem_cons_of_mem y (List.mem_cons_of_mem x hr))) hpos
      exact validPass_applyPass r x (applyPass y g)
        (fun k hk => (hco2.1 r hr k hk).symm) hv1 (posShape_applyPass y g hpos)
    · exact hco2.2
    · exact posShape_applyPass x (applyPass y g) (posShape_applyPass y g hpos)
  | trans h12 h23 ih12 ih23 =>
    intro g hv hd hc hpos
    have hv2 := fun r hr => hv r (h12.mem_iff.mpr hr)
    have hd2 := (h12.pairwise_iff (fun hab k hk => (hab k hk).symm)).mp hd
    have hc2 := fun p hp q hq => hc p (h12.mem_iff.mpr hp) q (h12.mem_iff.mpr hq)
    exact gridEquiv_trans (ih12 g hv hd hc hpos) (ih23 g hv2 hd2 hc2 hpos)

lemma axisMap_replicate_eq_symmetric (w : Nat × Nat) (s i : Nat)
    (hb : w.1 ≤ 1) (ha : w.2 ≤ 1) (hs : 0 < s) (hi : i < w.1 + s + w.2) :
    axisMap PadMode.replicate w s i = axisMap PadMode.symmetric w s i := by
  simp only [axisMap]
  congr 1
  rw [Nat.min_def]
  split
  · split
    · omega
    · split
      · rfl
      · omega
  · split
    · omega
    · split
      · omega
      · omega

/-- C3 (amended): `pad` decomposes a mixed per-axis spec into single-mode,
single-constant passes applied in turn; for every tensor with positive axis
sizes, whenever the effective passes pad pairwise disjoint axis sets with
widths valid for their modes and all constant-mode passes share one fill
value, the final result is independent of the order in which the passes are
applied. -/
theorem pad_pass_order_independent (α : Type) [Inhabited α] (t : Grid α)
    (specs specs' : List (PassSpec α)) (hperm : specs.Perm specs')
    (hv : ∀ s ∈ specs.map (effPass t.rank), ValidPass s t)
    (hd : (specs.map (effPass t.rank)).Pairwise (DisjointPasses t.rank))
    (hc : ∀ p ∈ specs.map (effPass t.rank), ∀ q ∈ specs.map (effPass t.rank),
      p.mode = PadMode.constant → q.mode = PadMode.constant → p.cval = q.cval)
    (hpos : PosShape t) :
    GridEquiv (pad_passes t specs) (pad_passes t specs') := by
  rw [pad_passes_eq_foldl, pad_passes_eq_foldl]
  exact foldl_pad_perm (hperm.map (effPass t.rank)) t hv hd hc hpos

/-- C3 counterexample to the claim as stated: two constant-mode passes with
different fill values (fill 1 before axis 0, fill 2 before axis 1) applied to
a 1×1 tensor give different corner values in the two orders, so the result of
`pad`'s pass sequence is not independent of pass order in general. -/
theorem pad_pass_order_counterexample :
    (pad_passes cexGrid [cexPassA, cexPassB]).data (fun _ => 0) = 2 ∧
    (pad_passes cexGrid [cexPassB, cexPassA]).data (fun _ => 0) = 1 ∧
    List.Perm [cexPassA, cexPassB] [cexPassB, cexPassA] := by
  refine ⟨by decide, by decide, List.Perm.swap _ _ _⟩

/-- C3 witness: two disjoint constant passes with a shared fill value commute
on a concrete 2×2 tensor. -/
theorem pad_pass_order_independent_witness :
    GridEquiv (pad_passes exGrid [exPassA, exPassB])
      (pad_passes exGrid [exPassB, exPassA]) := by
  apply pad_pass_order_independent Int exGrid [exPassA, exPassB] [exPassB, exPassA]
    (List.Perm.swap _ _ _)
  · intro s hs
    simp only [List.map_cons, List.map_nil, List.mem_cons, List.not_mem_nil,
      or_false] at hs
    rcases hs with h | h <;> (subst h; intro k hk; trivial)
  · simp only [List.map_cons, List.map_nil]
    refine List.Pairwise.cons ?_
      (List.Pairwise.cons (fun q hq => absurd hq (List.not_mem_nil q)) List.Pairwise.nil)
    intro q hq
    rw [List.mem_singleton] at hq
    subst hq
    intro k hk
    rcases k with _ | _ | k
    · exact Or.inr rfl
    · exact Or.inl rfl
    · have hr : exGrid.rank = 2 := rfl
      rw [hr] at hk
      omega
  · intro p hp q hq _ _
    simp only [List.map_cons, List.map_nil, List.mem_cons, List.not_mem_nil,
      or_false] at hp hq
    rcases hp with h | h <;> rcases hq with h' | h' <;> (subst h; subst h'; rfl)
  · intro k hk
    exact (by norm_num : (0 : Nat) < 2)

/-- C4: when any per-axis pad width exceeds 1, symmetric-mode padding runs
the true symmetric-reflection algorithm `symmetric_pad`; for widths all ≤ 1
it falls back to replicate mode; and for such widths replicate padding
produces exactly the same shape and values as symmetric reflection with the
same widths. -/
theorem symmetric_pad_dispatch (α : Type) [Inhabited α] (t : Grid α)
    (w : Nat → Nat × Nat) (c : α) (hpos : PosShape t) :
    (anyGt1 t.rank w = true →
      single_mode_single_constant_pad t w PadMode.symmetric c = symmetric_pad t w) ∧
    (anyGt1 t.rank w = false →
      single_mode_single_constant_pad t w PadMode.symmetric c =
        applyPass ⟨PadMode.replicate, interiorW t.rank w, c⟩ t) ∧
    ((∀ k, k < t.rank → (w k).1 ≤ 1 ∧ (w k).2 ≤ 1) →
      GridEquiv (applyPass ⟨PadMode.replicate, w, c⟩ t)
        (applyPass ⟨PadMode.symmetric, w, c⟩ t)) := by
  refine ⟨?_, ?_, ?_⟩
  · intro h
    simp only [single_mode_single_constant_pad]
    rw [if_pos h]
  · intro h
    simp only [single_mode_single_constant_pad]
    rw [if_neg (by simp [h])]
  · intro hle
    refine ⟨rfl, fun k hk => rfl, ?_⟩
    intro i hbi
    have hbi' : ∀ k, k < t.rank → i k < (w k).1 + t.shape k + (w k).2 := hbi
    simp only [applyPass]
    have hmap : ∀ k, k < t.rank →
        axisMap PadMode.replicate (w k) (t.shape k) (i k) =
          axisMap PadMode.symmetric (w k) (t.shape k) (i k) := by
      intro k hk
      exact axisMap_replicate_eq_symmetric (w k) (t.shape k) (i k)
        (hle k hk).1 (hle k hk).2 (hpos k hk) (hbi' k hk)
    have hrep : ∀ k, k < t.rank →
        (axisMap PadMode.replicate (w k) (t.shape k) (i k)).isSome :=
      fun k hk => axisMap_isSome_of_ne_constant _ _ _ _ (by decide)
    have hsym : ∀ k, k < t.rank →
        (axisMap PadMode.symmetric (w k) (t.shape k) (i k)).isSome :=
      fun k hk => axisMap_isSome_of_ne_constant _ _ _ _ (by decide)
    rw [if_pos hrep, if_pos hsym]
    apply congrArg
    funext k
    by_cases hk : k < t.rank
    · rw [if_pos hk, if_pos hk, hmap k hk]
    · rw [if_neg hk, if_neg hk]

/-- C4 witness: the dispatch theorem at the spec's example — `[1, 2, 3]`
padded symmetric with width 2 runs the true reflection and produces
`[2, 1, 1, 2, 3, 3, 2]` (checked at positions 0, 1, 3 and 6). -/
theorem symmetric_pad_dispatch_witness :
    PosShape exGrid13 ∧
    single_mode_single_constant_pad exGrid13 exW22 PadMode.symmetric 0 =
      symmetric_pad exGrid13 exW22 ∧
    (symmetric_pad exGrid13 exW22).data (fun _ => 0) = 2 ∧
    (symmetric_pad exGrid13 exW22).data (fun _ => 1) = 1 ∧
    (symmetric_pad exGrid13 exW22).data (fun _ => 3) = 2 ∧
    (symmetric_pad exGrid13 exW22).data (fun _ => 6) = 2 := by
  have hpos : PosShape exGrid13 := fun k hk => (by norm_num : (0 : Nat) < 3)
  exact ⟨hpos, (symmetric_pad_dispatch Nat exGrid13 exW22 0 hpos).1 rfl,
    by decide, by decide, by decide, by decide⟩

end PhiFlow
